import Mathlib

/-!
Shallow embedding of the aqua_troll_log_reader table-construction engine
(src/src/util/common.rs, csv_reader.rs, txt_reader.rs, html_reader.rs)
and proofs about the specified behaviour.

Modelling conventions:
* Rust `String` values are Lean `String`s; per-character reasoning uses the
  underlying `List Char`.
* `chrono::NaiveDateTime` and `f64` are external library types whose internal
  structure none of the verified properties depend on; their parsed values are
  carried as abstract payload strings, and the corresponding parsers
  (`DateTimeParser::parse`, `f64::from_str`) are taken as parameters of type
  `String → Option String` (the Rust datetime parser is itself a pluggable
  strategy value, so this is exactly its interface; only success/failure and
  the produced cell variant matter to the theorems below).
* Rust `Result<T, AquaTrollLogError>` becomes `Except LogError T`.
-/

namespace AquaTroll

/-- Model of `ColumnType` (src/src/util/common.rs, lines 142-147). -/
inductive ColumnType where
  | DateTime
  | Text
  | Float64
deriving DecidableEq, Repr

/-- Model of `CellValue` (src/src/util/common.rs, lines 65-71).  The
`DateTime` and `Float64` payloads are the abstract values produced by the
datetime / float parsers (see module docstring). -/
inductive CellValue where
  | DateTime (v : String)
  | Float64 (v : String)
  | Text (s : String)
deriving DecidableEq, Repr

/-- The variant tag of a cell, used to state the typing invariant. -/
def CellValue.variant : CellValue → ColumnType
  | .DateTime _ => .DateTime
  | .Float64 _ => .Float64
  | .Text _ => .Text

/-- Model of `Table` (src/src/util/common.rs, lines 83-87). -/
structure Table where
  columns : List String
  rows : List (List CellValue)
deriving DecidableEq, Repr

/-- Model of `csv::ErrorKind::UnequalLengths` (the only csv error the reader
recovers from): it records the expected field count and the actual one. -/
structure CsvError where
  expected : Nat
  got : Nat
deriving DecidableEq, Repr

/-- Model of `AquaTrollLogError` (src/src/error.rs), restricted to the
variants reachable in the embedded code: field-conversion failures
(`ChronoParseError` / `ParseFloatError`), `InvalidData`, and the
partial-result carrier `WithCsvPartialResult` (src/src/util/csv_reader.rs,
lines 11-15). -/
inductive LogError where
  | parse
  | invalidData
  | withCsvPartialResult (result : Table) (errors : List CsvError)
deriving DecidableEq, Repr

/-- Model of `TableBuilder` (src/src/util/common.rs, lines 149-154).
`datetime_fn` is the stored `DateTimeParser` strategy, abstracted to its
interface. -/
structure TableBuilder where
  column_types : List ColumnType
  columns : List String
  rows : List (List CellValue)
  datetime_fn : String → Option String

/-- `TableBuilder::new` (common.rs, lines 157-164); `defaultDT` models
`DateTimeParser::Default`. -/
def TableBuilder.new (defaultDT : String → Option String) : TableBuilder :=
  { column_types := [], columns := [], rows := [], datetime_fn := defaultDT }

/-- `TableBuilder::field_names` (common.rs, lines 166-186): one pass over the
declared names, pushing a (possibly renamed) column name and an inferred
column type for each. -/
def TableBuilder.field_names (b : TableBuilder) (names : List String) : TableBuilder :=
  let acc := names.foldl
    (fun (acc : List String × List ColumnType) name =>
      if name = "Date and Time" ∨ name = "Date Time" ∨ name = "Date/Time" ∨ name = "DateTime" then
        (acc.1 ++ ["DateTime"], acc.2 ++ [ColumnType.DateTime])
      else if name = "Note" ∨ name = "Marked" then
        (acc.1 ++ [name], acc.2 ++ [ColumnType.Text])
      else
        (acc.1 ++ [name], acc.2 ++ [ColumnType.Float64]))
    ([], [])
  { b with columns := acc.1, column_types := acc.2 }

/-- `TableBuilder::with_datetime_fn` (common.rs, lines 188-191). -/
def TableBuilder.with_datetime_fn (b : TableBuilder)
    (p : String → Option String) : TableBuilder :=
  { b with datetime_fn := p }

/-- Conversion of one raw field under a column type: the `match col_type`
body of `TableBuilder::try_push_row` (common.rs, lines 196-202).  `pF` models
`f64::from_str`, `dtp` the builder's datetime parser. -/
def convertCell (pF dtp : String → Option String) (ct : ColumnType) (s : String) :
    Except LogError CellValue :=
  match ct with
  | .DateTime =>
    match dtp s with
    | some v => .ok (.DateTime v)
    | none => .error .parse
  | .Text => .ok (.Text s)
  | .Float64 =>
    match pF s with
    | some v => .ok (.Float64 v)
    | none => .error .parse
/-- The row-conversion loop of `try_push_row` (common.rs, lines 194-204):
cells are produced in order over `row_values.zip(column_types)`, aborting at
the first conversion failure. -/
def rowCells (pF dtp : String → Option String) :
    List (String × ColumnType) → Except LogError (List CellValue)
  | [] => .ok []
  | (s, ct) :: rest =>
    match convertCell pF dtp ct s with
    | .error e => .error e
    | .ok c =>
      match rowCells pF dtp rest with
      | .error e => .error e
      | .ok cs => .ok (c :: cs)

/-- `TableBuilder::try_push_row` (common.rs, lines 193-207).  Note the Rust
`zip` silently truncates to the shorter of the raw-field list and the
declared column list. -/
def TableBuilder.try_push_row (pF : String → Option String) (b : TableBuilder)
    (row_values : List String) : Except LogError TableBuilder :=
  match rowCells pF b.datetime_fn (row_values.zip b.column_types) with
  | .error e => .error e
  | .ok row => .ok { b with rows := b.rows ++ [row] }

/-- `TableBuilder::try_build` (common.rs, lines 209-217). -/
def TableBuilder.try_build (b : TableBuilder) : Except LogError Table :=
  if b.columns = [] then .error .invalidData
  else .ok { columns := b.columns, rows := b.rows }

/-- The per-name canonical column name described by the spec for
`field_names` (rename the four date spellings to "DateTime", keep the rest). -/
def canonicalName (name : String) : String :=
  if name = "Date and Time" ∨ name = "Date Time" ∨ name = "Date/Time" ∨ name = "DateTime" then
    "DateTime"
  else name

/-- The per-name inferred column type described by the spec for
`field_names`. -/
def inferredType (name : String) : ColumnType :=
  if name = "Date and Time" ∨ name = "Date Time" ∨ name = "Date/Time" ∨ name = "DateTime" then
    .DateTime
  else if name = "Note" ∨ name = "Marked" then .Text
  else .Float64

theorem field_names_foldl (names : List String) (cs : List String) (ts : List ColumnType) :
    names.foldl
      (fun (acc : List String × List ColumnType) name =>
        if name = "Date and Time" ∨ name = "Date Time" ∨ name = "Date/Time" ∨ name = "DateTime" then
          (acc.1 ++ ["DateTime"], acc.2 ++ [ColumnType.DateTime])
        else if name = "Note" ∨ name = "Marked" then
          (acc.1 ++ [name], acc.2 ++ [ColumnType.Text])
        else
          (acc.1 ++ [name], acc.2 ++ [ColumnType.Float64]))
      (cs, ts)
    = (cs ++ names.map canonicalName, ts ++ names.map inferredType) := by
  induction names generalizing cs ts with
  | nil => simp
  | cons name rest ih =>
    simp only [List.foldl_cons, List.map_cons]
    by_cases h1 : name = "Date and Time" ∨ name = "Date Time" ∨ name = "Date/Time" ∨ name = "DateTime"
    · simp only [h1, if_pos, ih, canonicalName, inferredType, if_true]
      simp
    · by_cases h2 : name = "Note" ∨ name = "Marked"
      · simp only [h1, h2, if_neg, if_pos, if_true, if_false, ih, canonicalName, inferredType]
        simp
      · simp only [h1, h2, if_neg, if_false, ih, canonicalName, inferredType]
        simp

/-- Whether an `Except` computation succeeded. -/
def exOk {α : Type} : Except LogError α → Bool
  | .ok _ => true
  | .error _ => false

/-- The successful result of a row conversion (`[]` when it failed); lets the
theorems below name the pushed row without an existential. -/
def okRow (e : Except LogError (List CellValue)) : List CellValue :=
  match e with
  | .ok r => r
  | .error _ => []

theorem exOk_eq_ok (e : Except LogError (List CellValue)) (h : exOk e = true) :
    e = .ok (okRow e) := by
  cases e with
  | ok r => rfl
  | error err => exact absurd h (by simp [exOk])

theorem convertCell_variant (pF dtp : String → Option String) (ct : ColumnType) (s : String)
    (c : CellValue) (h : convertCell pF dtp ct s = .ok c) : c.variant = ct := by
  cases ct with
  | DateTime =>
    unfold convertCell at h
    cases hd : dtp s with
    | none => rw [hd] at h; exact absurd h (by simp)
    | some v => rw [hd] at h; cases h; rfl
  | Text => unfold convertCell at h; cases h; rfl
  | Float64 =>
    unfold convertCell at h
    cases hd : pF s with
    | none => rw [hd] at h; exact absurd h (by simp)
    | some v => rw [hd] at h; cases h; rfl

theorem rowCells_ok_of_all (pF dtp : String → Option String) (l : List (String × ColumnType))
    (h : ∀ p ∈ l, exOk (convertCell pF dtp p.2 p.1) = true) :
    rowCells pF dtp l = .ok (okRow (rowCells pF dtp l)) := by
  induction l with
  | nil => rfl
  | cons p rest ih =>
    obtain ⟨s, ct⟩ := p
    have hp := h (s, ct) (List.mem_cons_self _ _)
    unfold rowCells
    cases hc : convertCell pF dtp ct s with
    | error e => rw [hc] at hp; exact absurd hp (by simp [exOk])
    | ok c =>
      have hrest := ih (fun q hq => h q (List.mem_cons_of_mem _ hq))
      rw [hrest]
      rfl

theorem rowCells_length (pF dtp : String → Option String) (l : List (String × ColumnType))
    (row : List CellValue) (h : rowCells pF dtp l = .ok row) : row.length = l.length := by
  induction l generalizing row with
  | nil => unfold rowCells at h; cases h; rfl
  | cons p rest ih =>
    obtain ⟨s, ct⟩ := p
    unfold rowCells at h
    cases hc : convertCell pF dtp ct s with
    | error e => rw [hc] at h; exact absurd h (by simp)
    | ok c =>
      rw [hc] at h
      cases hr : rowCells pF dtp rest with
      | error e => rw [hr] at h; exact absurd h (by simp)
      | ok cs =>
        rw [hr] at h
        cases h
        simp [ih cs hr]

theorem rowCells_variants (pF dtp : String → Option String) (l : List (String × ColumnType))
    (row : List CellValue) (h : rowCells pF dtp l = .ok row) :
    ∀ i, i < row.length →
      (row.getD i (.Text "")).variant = (l.getD i ("", ColumnType.Text)).2 := by
  induction l generalizing row with
  | nil =>
    unfold rowCells at h; cases h
    intro i hi; exact absurd hi (by simp)
  | cons p rest ih =>
    obtain ⟨s, ct⟩ := p
    unfold rowCells at h
    cases hc : convertCell pF dtp ct s with
    | error e => rw [hc] at h; exact absurd h (by simp)
    | ok c =>
      rw [hc] at h
      cases hr : rowCells pF dtp rest with
      | error e => rw [hr] at h; exact absurd h (by simp)
      | ok cs =>
        rw [hr] at h
        cases h
        intro i hi
        cases i with
        | zero => simpa using convertCell_variant pF dtp ct s c hc
        | succ j =>
          simp only [List.getD_cons_succ]
          exact ih cs hr j (by simpa using hi)

theorem field_names_spec (b : TableBuilder) (names : List String) :
    (b.field_names names).columns = names.map canonicalName ∧
    (b.field_names names).column_types = names.map inferredType := by
  unfold TableBuilder.field_names
  rw [field_names_foldl]
  exact ⟨rfl, rfl⟩

/-- C1: `TableBuilder::field_names` infers column names and types
deterministically and positionally: each of the four date-header spellings
yields a `DateTime` column renamed to "DateTime"; "Note" and "Marked" yield
`Text` columns keeping their names; every other name yields a `Float64`
column keeping its name; declaration order is preserved. -/
theorem C1_field_names_inference (b : TableBuilder) (names : List String) :
    (b.field_names names).columns = names.map canonicalName ∧
    (b.field_names names).column_types = names.map inferredType :=
  field_names_spec b names

/-- A total stand-in parser used to build concrete instances: every input
string is accepted and carried through as the parsed value. -/
def someParse : String → Option String := fun s => some s

/-- C10: for a raw-field list whose length differs from the declared column
count, `try_push_row` reports no arity mismatch: it converts exactly the
first `min(m, k)` fields (the `zip` truncation), succeeds whenever those
convert, and stores a row of length `min(m, k)` — in particular a row
shorter than the column list when `m < k`.  (`k` is the length of
`column_types`; `field_names` always makes it equal to the length of
`columns`, see `field_names_spec`.) -/
theorem C10_try_push_row_truncates (pF : String → Option String) (b : TableBuilder)
    (vals : List String) (hm : vals.length ≠ b.column_types.length)
    (hok : ∀ p ∈ vals.zip b.column_types, exOk (convertCell pF b.datetime_fn p.2 p.1) = true) :
    b.try_push_row pF vals =
      .ok { b with rows := b.rows ++ [okRow (rowCells pF b.datetime_fn (vals.zip b.column_types))] } ∧
    (okRow (rowCells pF b.datetime_fn (vals.zip b.column_types))).length =
      min vals.length b.column_types.length := by
  have hcells := rowCells_ok_of_all pF b.datetime_fn (vals.zip b.column_types) hok
  constructor
  · unfold TableBuilder.try_push_row
    rw [hcells]
    simp [okRow]
  · rw [rowCells_length pF b.datetime_fn _ _ hcells]
    simp [List.length_zip]

theorem C10_try_push_row_truncates_witness :
    ((TableBuilder.new someParse).field_names ["A", "B"]).try_push_row someParse ["1.5"] =
      .ok { ((TableBuilder.new someParse).field_names ["A", "B"]) with
              rows := [[CellValue.Float64 "1.5"]] } ∧
    ([CellValue.Float64 "1.5"].length = 1 ∧ (1 : Nat) < 2) := by
  have h := C10_try_push_row_truncates someParse
    ((TableBuilder.new someParse).field_names ["A", "B"]) ["1.5"]
    (by decide) (by decide)
  exact ⟨by simpa using h.1, by decide⟩

/-- The builders reachable through the documented usage protocol:
`TableBuilder::new().field_names(..)`, optionally
`.with_datetime_fn(..)`, then a sequence of successful
`try_push_row` calls. -/
inductive Reachable (defaultDT pF : String → Option String) : TableBuilder → Prop where
  | fields (names : List String) :
      Reachable defaultDT pF ((TableBuilder.new defaultDT).field_names names)
  | fieldsParser (names : List String) (dtp : String → Option String) :
      Reachable defaultDT pF
        (((TableBuilder.new defaultDT).field_names names).with_datetime_fn dtp)
  | push (b : TableBuilder) (vals : List String) (b' : TableBuilder) :
      Reachable defaultDT pF b → b.try_push_row pF vals = .ok b' →
      Reachable defaultDT pF b'

/-- C2 (amended): in every builder reachable through the documented protocol,
`column_types` and `columns` have the same length, and every stored row has
AT MOST `len(columns)` cells (not exactly: `try_push_row` truncates at
`min(m, k)`), with the variant of each
present cell matching the column type at its index. -/
theorem C2_builder_typing_invariant (defaultDT pF : String → Option String)
    (b : TableBuilder) (h : Reachable defaultDT pF b) :
    b.column_types.length = b.columns.length ∧
    ∀ r ∈ b.rows, r.length ≤ b.columns.length ∧
      ∀ i, i < r.length →
        (r.getD i (.Text "")).variant = b.column_types.getD i ColumnType.Text := by
  induction h with
  | fields names =>
    refine ⟨?_, ?_⟩
    · have := field_names_spec (TableBuilder.new defaultDT) names
      rw [this.1, this.2]; simp
    · intro r hr
      exact absurd hr (by simp [TableBuilder.field_names, TableBuilder.new])
  | fieldsParser names dtp =>
    refine ⟨?_, ?_⟩
    · have := field_names_spec (TableBuilder.new defaultDT) names
      simp only [TableBuilder.with_datetime_fn]
      rw [this.1, this.2]; simp
    · intro r hr
      exact absurd hr
        (by simp [TableBuilder.field_names, TableBuilder.new, TableBuilder.with_datetime_fn])
  | push b vals b' _ hpush ih =>
    unfold TableBuilder.try_push_row at hpush
    cases hc : rowCells pF b.datetime_fn (vals.zip b.column_types) with
    | error e => rw [hc] at hpush; exact absurd hpush (by simp)
    | ok row =>
      rw [hc] at hpush
      cases hpush
      refine ⟨ih.1, ?_⟩
      intro r hr
      simp only [List.mem_append, List.mem_singleton] at hr
      rcases hr with hr | hr
      · exact ih.2 r hr
      · subst hr
        have hlen := rowCells_length pF b.datetime_fn _ _ hc
        rw [List.length_zip] at hlen
        refine ⟨?_, ?_⟩
        · rw [hlen, ← ih.1]; exact min_le_right _ _
        · intro i hi
          have hv := rowCells_variants pF b.datetime_fn _ _ hc i hi
          rw [hv]
          have hib : i < (vals.zip b.column_types).length := by
            rw [List.length_zip, ← hlen]; exact hi
          have hit : i < b.column_types.length := by
            rw [List.length_zip] at hib; exact lt_of_lt_of_le hib (min_le_right _ _)
          have hiv : i < vals.length := by
            rw [List.length_zip] at hib; exact lt_of_lt_of_le hib (min_le_left _ _)
          rw [List.getD_eq_getElem _ _ hib, List.getD_eq_getElem _ _ hit]
          simp [List.getElem_zip]

/-- A concrete reachable builder: two `Float64` columns and one pushed
one-field row. -/
def sampleBuilder : TableBuilder :=
  { column_types := [ColumnType.Float64, ColumnType.Float64],
    columns := ["A", "B"], rows := [[CellValue.Float64 "1.5"]],
    datetime_fn := someParse }

theorem C2_builder_typing_invariant_witness :
    sampleBuilder.column_types.length = sampleBuilder.columns.length := by
  have hreach : Reachable someParse someParse sampleBuilder :=
    Reachable.push _ ["1.5"] _ (Reachable.fields ["A", "B"]) rfl
  exact (C2_builder_typing_invariant someParse someParse _ hreach).1

/-! Delimited (CSV) reader, src/src/util/csv_reader.rs.  The external csv
crate is modelled by presenting the input as the pre-split header record plus
a list of pre-split data records; with the default (non-flexible) reader
configuration, `read_record` reports `ErrorKind::UnequalLengths` for every
record whose field count differs from the header's, which `read_table`
recovers by recording the error and skipping the record. -/

/-- The Rust drop test `fields.iter().zip(values.iter()).any(|(f, v)| f == v)`
(csv_reader.rs, line 52). -/
def hasHeaderEcho (fields values : List String) : Bool :=
  (fields.zip values).any (fun p => p.1 = p.2)

/-- One iteration of the `read_table` record loop (csv_reader.rs, lines
47-68): a record of mismatched length appends an `UnequalLengths` error and
is skipped; a record echoing the header is silently dropped; every other
record is pushed into the builder (`?` propagates push failures). -/
def csvStep (pF : String → Option String) (fields : List String) (flen : Nat)
    (st : TableBuilder × List CsvError) (values : List String) :
    Except LogError (TableBuilder × List CsvError) :=
  if values.length ≠ flen then .ok (st.1, st.2 ++ [⟨flen, values.length⟩])
  else if hasHeaderEcho fields values then .ok st
  else
    match st.1.try_push_row pF values with
    | .error e => .error e
    | .ok tb' => .ok (tb', st.2)

/-- The `read_table` record loop (csv_reader.rs, lines 47-69). -/
def csvLoop (pF : String → Option String) (fields : List String) (flen : Nat) :
    List (List String) → TableBuilder × List CsvError →
    Except LogError (TableBuilder × List CsvError)
  | [], st => .ok st
  | values :: rest, st =>
    match csvStep pF fields flen st values with
    | .error e => .error e
    | .ok st' => csvLoop pF fields flen rest st'

/-- `read_table` of the delimited reader (csv_reader.rs, lines 29-81):
build the column set from the header record, run the record loop, then
either return the built table (no recovered errors) or wrap the best-effort
table and the error list in `WithCsvPartialResult`. -/
def csvReadTable (pF defaultDT : String → Option String) (header : List String)
    (records : List (List String)) : Except LogError Table :=
  match csvLoop pF header header.length records
      ((TableBuilder.new defaultDT).field_names header, []) with
  | .error e => .error e
  | .ok (tb, errs) =>
    if errs = [] then tb.try_build
    else
      match tb.try_build with
      | .ok t => .error (.withCsvPartialResult t errs)
      | .error e => .error e

/-- The row a successful push stores for raw fields `vals` under column
types `cts`. -/
def convRow (pF dtp : String → Option String) (cts : List ColumnType)
    (vals : List String) : List CellValue :=
  okRow (rowCells pF dtp (vals.zip cts))

theorem csvLoop_append (pF : String → Option String) (fields : List String) (flen : Nat)
    (l1 l2 : List (List String)) (st : TableBuilder × List CsvError) :
    csvLoop pF fields flen (l1 ++ l2) st =
      match csvLoop pF fields flen l1 st with
      | .error e => .error e
      | .ok st' => csvLoop pF fields flen l2 st' := by
  induction l1 generalizing st with
  | nil => rfl
  | cons r rest ih =>
    simp only [List.cons_append, csvLoop]
    cases h : csvStep pF fields flen st r with
    | error e => simp
    | ok st' =>
      simp only []
      exact ih st'

/-- The rows the record loop stores for a run of records that all parse:
header-echo records are dropped, the rest are converted. -/
def csvPushedRows (pF dtp : String → Option String) (cts : List ColumnType)
    (fields : List String) (records : List (List String)) : List (List CellValue) :=
  (records.filter (fun r => !hasHeaderEcho fields r)).map (convRow pF dtp cts)

theorem csvLoop_all_ok (pF : String → Option String) (fields : List String) (flen : Nat)
    (records : List (List String)) (st : TableBuilder × List CsvError)
    (hlen : ∀ r ∈ records, r.length = flen)
    (hconv : ∀ r ∈ records, hasHeaderEcho fields r = false →
      exOk (rowCells pF st.1.datetime_fn (r.zip st.1.column_types)) = true) :
    csvLoop pF fields flen records st =
      .ok ({ st.1 with
              rows := st.1.rows ++
                csvPushedRows pF st.1.datetime_fn st.1.column_types fields records },
           st.2) := by
  induction records generalizing st with
  | nil => simp [csvLoop, csvPushedRows]
  | cons r rest ih =>
    have hr := hlen r (List.mem_cons_self _ _)
    simp only [csvLoop, csvStep]
    rw [if_neg (by simp [hr])]
    by_cases hecho : hasHeaderEcho fields r = true
    · rw [if_pos hecho]
      simp only []
      have := ih st (fun q hq => hlen q (List.mem_cons_of_mem _ hq))
        (fun q hq hqe => hconv q (List.mem_cons_of_mem _ hq) hqe)
      rw [this]
      simp [csvPushedRows, List.filter_cons, hecho]
    · have hecho' : hasHeaderEcho fields r = false := by
        cases h : hasHeaderEcho fields r with
        | true => exact absurd h hecho
        | false => rfl
      rw [if_neg (by simp [hecho'])]
      have hok := hconv r (List.mem_cons_self _ _) hecho'
      have hcells := exOk_eq_ok _ hok
      simp only [TableBuilder.try_push_row]
      rw [hcells]
      simp only []
      have := ih ({ st.1 with rows := st.1.rows ++
          [okRow (rowCells pF st.1.datetime_fn (r.zip st.1.column_types))] }, st.2)
        (fun q hq => hlen q (List.mem_cons_of_mem _ hq))
        (fun q hq hqe => hconv q (List.mem_cons_of_mem _ hq) hqe)
      rw [this]
      simp [csvPushedRows, List.filter_cons, hecho', convRow, List.append_assoc]

/-- C2 (counterexample to the claim as stated): a builder with two declared
columns accepts a one-field row, and `try_build` then produces a table whose
single row has 1 cell while `len(columns)` is 2 — refuting "every row has
exactly `len(columns)` cells, regardless of the lengths of the raw-field
lists". -/
theorem C2_row_length_counterexample :
    (match ((TableBuilder.new someParse).field_names ["A", "B"]).try_push_row someParse ["1.5"] with
      | .ok b => b.try_build
      | .error e => .error e) =
      .ok { columns := ["A", "B"], rows := [[CellValue.Float64 "1.5"]] } ∧
    ¬ ([CellValue.Float64 "1.5"].length = (["A", "B"] : List String).length) := by
  exact ⟨rfl, by decide⟩

theorem csvPushedRows_append (pF dtp : String → Option String) (cts : List ColumnType)
    (fields : List String) (l1 l2 : List (List String)) :
    csvPushedRows pF dtp cts fields (l1 ++ l2) =
      csvPushedRows pF dtp cts fields l1 ++ csvPushedRows pF dtp cts fields l2 := by
  simp [csvPushedRows, List.filter_append]

theorem field_names_new_eq (d : String → Option String) (header : List String) :
    (TableBuilder.new d).field_names header =
      { column_types := header.map inferredType, columns := header.map canonicalName,
        rows := [], datetime_fn := d } := by
  unfold TableBuilder.field_names TableBuilder.new
  rw [field_names_foldl]
  simp

theorem hasHeaderEcho_iff (fields values : List String) :
    hasHeaderEcho fields values = true ↔
      ∃ i, i < fields.length ∧ i < values.length ∧ fields.getD i "" = values.getD i "" := by
  unfold hasHeaderEcho
  rw [List.any_eq_true]
  constructor
  · rintro ⟨p, hp, he⟩
    obtain ⟨i, hi, hget⟩ := List.getElem_of_mem hp
    have hif : i < fields.length := by
      rw [List.length_zip] at hi
      exact lt_of_lt_of_le hi (min_le_left _ _)
    have hiv : i < values.length := by
      rw [List.length_zip] at hi
      exact lt_of_lt_of_le hi (min_le_right _ _)
    refine ⟨i, hif, hiv, ?_⟩
    rw [List.getD_eq_getElem _ _ hif, List.getD_eq_getElem _ _ hiv]
    have hz : (fields.zip values)[i] = (fields[i], values[i]) := List.getElem_zip
    rw [hz] at hget
    have := of_decide_eq_true he
    rw [← hget] at this
    simpa using this
  · rintro ⟨i, hif, hiv, he⟩
    have hi : i < (fields.zip values).length := by
      rw [List.length_zip]
      exact lt_min hif hiv
    refine ⟨(fields.zip values)[i], List.getElem_mem hi, ?_⟩
    have hz : (fields.zip values)[i] = (fields[i], values[i]) := List.getElem_zip
    rw [hz]
    rw [List.getD_eq_getElem _ _ hif, List.getD_eq_getElem _ _ hiv] at he
    exact decide_eq_true he

/-- The `UnequalLengths` errors the record loop accumulates: one per record
whose field count differs from the header's, in input order
(csv_reader.rs, lines 60-65). -/
def mismatchErrors (flen : Nat) (records : List (List String)) : List CsvError :=
  (records.filter (fun r => !(r.length == flen))).map
    (fun r => { expected := flen, got := r.length })

theorem csvLoop_mixed (pF : String → Option String) (fields : List String) (flen : Nat)
    (records : List (List String)) :
    ∀ (st : TableBuilder × List CsvError),
    (∀ r ∈ records, r.length = flen → hasHeaderEcho fields r = false →
      exOk (rowCells pF st.1.datetime_fn (r.zip st.1.column_types)) = true) →
    csvLoop pF fields flen records st =
      .ok ({ st.1 with
              rows := st.1.rows ++
                csvPushedRows pF st.1.datetime_fn st.1.column_types fields
                  (records.filter (fun r => r.length == flen)) },
           st.2 ++ mismatchErrors flen records) := by
  induction records with
  | nil => intro st _; simp [csvLoop, csvPushedRows, mismatchErrors]
  | cons r rest ih =>
    intro st hconv
    simp only [csvLoop, csvStep]
    by_cases hlen : r.length = flen
    · rw [if_neg (by simp [hlen])]
      by_cases hecho : hasHeaderEcho fields r = true
      · rw [if_pos hecho]
        simp only []
        rw [ih st (fun q hq => hconv q (List.mem_cons_of_mem _ hq))]
        simp [csvPushedRows, mismatchErrors, List.filter_cons, hlen, hecho]
      · have hecho' : hasHeaderEcho fields r = false := by
          cases h : hasHeaderEcho fields r with
          | true => exact absurd h hecho
          | false => rfl
        rw [if_neg (by simp [hecho'])]
        have hok := hconv r (List.mem_cons_self _ _) hlen hecho'
        have hcells := exOk_eq_ok _ hok
        simp only [TableBuilder.try_push_row]
        rw [hcells]
        simp only []
        rw [ih ({ st.1 with rows := st.1.rows ++
            [okRow (rowCells pF st.1.datetime_fn (r.zip st.1.column_types))] }, st.2)
          (fun q hq => hconv q (List.mem_cons_of_mem _ hq))]
        simp [csvPushedRows, mismatchErrors, List.filter_cons, hlen, hecho', convRow,
          List.append_assoc]
    · rw [if_pos (by simpa using hlen)]
      simp only []
      have hih := ih (st.1, st.2 ++ [({ expected := flen, got := r.length } : CsvError)])
        (fun q hq => hconv q (List.mem_cons_of_mem _ hq))
      rw [hih]
      simp [csvPushedRows, mismatchErrors, List.filter_cons, hlen, List.append_assoc]

/-- C3: `read_table` of the delimited reader.  Part 1: if every data record
has the header's field count (so no length-mismatch error is ever recorded)
the built table is returned directly.  Part 2 (the "otherwise" branch in
full generality): whenever at least one data record has a mismatched field
count, the result is a single `WithCsvPartialResult` error carrying both
the best-effort table built from all records that did parse and the list of
skipped-row errors — one per mismatched record, in input order.  Part 3 (in
particular): with exactly one mismatched record, the table contains every
other valid record and the error list has exactly one entry. -/
theorem C3_csv_partial_result (pF d : String → Option String) (header : List String)
    (hh : header ≠ []) :
    (∀ records, (∀ r ∈ records, r.length = header.length) →
      (∀ r ∈ records, hasHeaderEcho header r = false →
        exOk (rowCells pF d (r.zip (header.map inferredType))) = true) →
      csvReadTable pF d header records =
        .ok { columns := header.map canonicalName,
              rows := csvPushedRows pF d (header.map inferredType) header records }) ∧
    (∀ records, (∃ r ∈ records, r.length ≠ header.length) →
      (∀ r ∈ records, r.length = header.length → hasHeaderEcho header r = false →
        exOk (rowCells pF d (r.zip (header.map inferredType))) = true) →
      csvReadTable pF d header records =
        .error (.withCsvPartialResult
          { columns := header.map canonicalName,
            rows := csvPushedRows pF d (header.map inferredType) header
              (records.filter (fun r => r.length == header.length)) }
          (mismatchErrors header.length records))) ∧
    (∀ pre bad post, bad.length ≠ header.length →
      (∀ r ∈ pre ++ post, r.length = header.length) →
      (∀ r ∈ pre ++ post, hasHeaderEcho header r = false →
        exOk (rowCells pF d (r.zip (header.map inferredType))) = true) →
      csvReadTable pF d header (pre ++ bad :: post) =
        .error (.withCsvPartialResult
          { columns := header.map canonicalName,
            rows := csvPushedRows pF d (header.map inferredType) header (pre ++ post) }
          [⟨header.length, bad.length⟩])) := by
  have hcols : ¬ (header.map canonicalName = []) := by
    intro hmap
    exact hh (List.map_eq_nil_iff.mp hmap)
  refine ⟨?_, ?_, ?_⟩
  · intro records hlen hconv
    unfold csvReadTable
    rw [field_names_new_eq]
    rw [csvLoop_all_ok pF header header.length records _ hlen hconv]
    simp only [if_true]
    unfold TableBuilder.try_build
    rw [if_neg hcols]
    simp
  · intro records hex hconv
    unfold csvReadTable
    rw [field_names_new_eq]
    rw [csvLoop_mixed pF header header.length records _ hconv]
    simp only []
    have herr : ¬ (([] : List CsvError) ++ mismatchErrors header.length records = []) := by
      obtain ⟨r, hr, hne⟩ := hex
      simp only [List.nil_append]
      intro habs
      unfold mismatchErrors at habs
      rw [List.map_eq_nil_iff] at habs
      have hrf : r ∈ records.filter (fun r => !(r.length == header.length)) :=
        List.mem_filter.mpr ⟨hr, by simp [hne]⟩
      rw [habs] at hrf
      exact absurd hrf (by simp)
    rw [if_neg herr]
    unfold TableBuilder.try_build
    rw [if_neg hcols]
    simp
  · intro pre bad post hbad hlen hconv
    unfold csvReadTable
    rw [field_names_new_eq]
    rw [csvLoop_append]
    rw [csvLoop_all_ok pF header header.length pre _
      (fun r hr => hlen r (List.mem_append_left _ hr))
      (fun r hr he => hconv r (List.mem_append_left _ hr) he)]
    simp only [csvLoop, csvStep]
    rw [if_pos (by simpa using hbad)]
    simp only []
    rw [csvLoop_all_ok pF header header.length post _
      (fun r hr => hlen r (List.mem_append_right _ hr))
      (fun r hr he => hconv r (List.mem_append_right _ hr) he)]
    simp only []
    rw [if_neg (by simp)]
    unfold TableBuilder.try_build
    rw [if_neg hcols]
    simp [csvPushedRows_append, List.append_assoc]

theorem C3_csv_partial_result_witness :
    csvReadTable someParse someParse ["H"] [["1"]] =
      .ok { columns := ["H"], rows := [[CellValue.Float64 "1"]] } ∧
    csvReadTable someParse someParse ["H"] [["1"], ["2", "3"], ["4"], ["5", "6"]] =
      .error (.withCsvPartialResult
        { columns := ["H"], rows := [[CellValue.Float64 "1"], [CellValue.Float64 "4"]] }
        [⟨1, 2⟩, ⟨1, 2⟩]) ∧
    csvReadTable someParse someParse ["H"] [["1"], ["2", "3"], ["4"]] =
      .error (.withCsvPartialResult
        { columns := ["H"], rows := [[CellValue.Float64 "1"], [CellValue.Float64 "4"]] }
        [⟨1, 2⟩]) := by
  have h := C3_csv_partial_result someParse someParse ["H"] (by decide)
  refine ⟨?_, ?_, ?_⟩
  · have h1 := h.1 [["1"]] (by decide) (by decide)
    simpa [csvPushedRows, convRow, canonicalName, inferredType] using h1
  · have h2 := h.2.1 [["1"], ["2", "3"], ["4"], ["5", "6"]]
      ⟨["2", "3"], by decide, by decide⟩ (by decide)
    simpa [csvPushedRows, convRow, canonicalName, inferredType, mismatchErrors] using h2
  · have h3 := h.2.2 [["1"]] ["2", "3"] [["4"]] (by decide) (by decide) (by decide)
    simpa [csvPushedRows, convRow, canonicalName, inferredType] using h3

/-- C4 (amended): in the delimited reader's record loop, a data record whose
field count equals the header's is silently dropped (no push, no recorded
error) if and only if SOME field is textually identical to the header name
at the same position — not only when the whole record equals the header;
every such record with no positional match is pushed into the builder. -/
theorem C4_row_drop_characterization (pF : String → Option String) (fields : List String)
    (tb : TableBuilder) (errs : List CsvError) (values : List String)
    (hlen : values.length = fields.length) :
    ((∃ i, i < fields.length ∧ i < values.length ∧ fields.getD i "" = values.getD i "") →
      csvStep pF fields fields.length (tb, errs) values = .ok (tb, errs)) ∧
    ((¬ ∃ i, i < fields.length ∧ i < values.length ∧ fields.getD i "" = values.getD i "") →
      csvStep pF fields fields.length (tb, errs) values =
        match tb.try_push_row pF values with
        | .error e => .error e
        | .ok tb' => .ok (tb', errs)) := by
  constructor
  · intro hex
    have hecho : hasHeaderEcho fields values = true := (hasHeaderEcho_iff fields values).mpr hex
    unfold csvStep
    rw [if_neg (by simp [hlen]), if_pos hecho]
  · intro hex
    have hecho : hasHeaderEcho fields values = false := by
      cases h : hasHeaderEcho fields values with
      | true => exact absurd ((hasHeaderEcho_iff fields values).mp h) hex
      | false => rfl
    unfold csvStep
    rw [if_neg (by simp [hlen]), if_neg (by simp [hecho])]

theorem C4_row_drop_characterization_witness :
    csvStep someParse ["A", "B"] 2
        ((TableBuilder.new someParse).field_names ["A", "B"], []) ["A", "1.5"] =
      .ok ((TableBuilder.new someParse).field_names ["A", "B"], []) := by
  have h := (C4_row_drop_characterization someParse ["A", "B"]
    ((TableBuilder.new someParse).field_names ["A", "B"]) [] ["A", "1.5"] (by decide)).1
    ⟨0, by decide, by decide, by decide⟩
  exact h

/-- C4 (counterexample to the claim as stated): the record `["A", "1.5"]`
has the header's field count and is NOT textually identical to the header
`["A", "B"]`, yet the reader silently drops it (the resulting table has no
rows and no error is reported), because its first field coincides with the
first header name. -/
theorem C4_row_drop_counterexample :
    csvReadTable someParse someParse ["A", "B"] [["A", "1.5"]] =
      .ok { columns := ["A", "B"], rows := [] } ∧
    (["A", "1.5"] : List String) ≠ ["A", "B"] ∧
    (["A", "1.5"] : List String).length = (["A", "B"] : List String).length := by
  exact ⟨rfl, by decide, by decide⟩

/-! Fixed-width / attribute-block text reader, src/src/util/txt_reader.rs. -/

/-- The whitespace predicate used by Rust `str::trim` /
`split_whitespace`, restricted to the ASCII whitespace that occurs in the
log formats. -/
def isWs (c : Char) : Bool :=
  c = ' ' ∨ c = '\t' ∨ c = '\n' ∨ c = '\r'

/-- Drop trailing whitespace (the right half of Rust `str::trim`). -/
def trailTrim (l : List Char) : List Char :=
  (l.reverse.dropWhile isWs).reverse

/-- Rust `str::trim` on the underlying character list. -/
def trimChars (l : List Char) : List Char :=
  (trailTrim l).dropWhile isWs

/-- Rust `str::trim`. -/
def rustTrim (s : String) : String :=
  ⟨trimChars s.data⟩

/-- Rust `str::split_once(c)`: split at the first occurrence of `c`
(excluded), `none` when `c` does not occur. -/
def splitOnceChar (c : Char) : List Char → Option (List Char × List Char)
  | [] => none
  | x :: rest =>
    if x = c then some ([], rest)
    else
      match splitOnceChar c rest with
      | none => none
      | some (k, v) => some (x :: k, v)

/-- Rust `line.starts_with(" ")`. -/
def startsWithSpace (s : String) : Bool :=
  match s.data with
  | c :: _ => c = ' '
  | [] => false

/-- Model of `LineContent` (txt_reader.rs, lines 11-15). -/
inductive LineContent where
  | Header (k : String)
  | Entry (k : String) (v : String)
deriving DecidableEq, Repr

/-- `parse_line_content` (txt_reader.rs, lines 17-27): split the trimmed
line at its first colon; with a colon, the line is a `Header` of the trimmed
key when the trimmed value part is empty AND the raw line does not start
with a space (the indentation convention of the attribute blocks), otherwise
an `Entry` of the trimmed key and value; without a colon the whole trimmed
line is a `Header`. -/
def parse_line_content (line : String) : LineContent :=
  match splitOnceChar ':' (trimChars line.data) with
  | some (k, v) =>
    if trimChars v = [] ∧ startsWithSpace line = false then .Header ⟨trimChars k⟩
    else .Entry ⟨trimChars k⟩ ⟨trimChars v⟩
  | none => .Header ⟨trimChars line.data⟩

/-- C7: classification by `parse_line_content` of a non-blank line.  With a
colon in the (trimmed) line, the result is a `Header` (of the trimmed key)
exactly when the trimmed value part is empty and the line has no leading
indentation (i.e. does not start with a space character, the indentation
convention of the attribute blocks); otherwise it is an `Entry` carrying the
trimmed key and trimmed value.  Without any colon, the result is a `Header`
whose key is the full trimmed line. -/
theorem C7_line_classification (line : String) (hnb : trimChars line.data ≠ []) :
    (∀ k v, splitOnceChar ':' (trimChars line.data) = some (k, v) →
      ((∃ s, parse_line_content line = .Header s) ↔
        (trimChars v = [] ∧ startsWithSpace line = false)) ∧
      (trimChars v = [] ∧ startsWithSpace line = false →
        parse_line_content line = .Header ⟨trimChars k⟩) ∧
      (¬ (trimChars v = [] ∧ startsWithSpace line = false) →
        parse_line_content line = .Entry ⟨trimChars k⟩ ⟨trimChars v⟩)) ∧
    (splitOnceChar ':' (trimChars line.data) = none →
      parse_line_content line = .Header (rustTrim line)) := by
  constructor
  · intro k v hsplit
    unfold parse_line_content
    rw [hsplit]
    simp only []
    by_cases hc : trimChars v = [] ∧ startsWithSpace line = false
    · rw [if_pos hc]
      exact ⟨⟨fun _ => hc, fun _ => ⟨⟨trimChars k⟩, rfl⟩⟩, fun _ => rfl,
        fun hn => absurd hc hn⟩
    · rw [if_neg hc]
      refine ⟨⟨fun ⟨s, hs⟩ => ?_, fun h => absurd h hc⟩, fun h => absurd h hc, fun _ => rfl⟩
      exact absurd hs (by simp)
  · intro hnone
    unfold parse_line_content rustTrim
    rw [hnone]

theorem C7_line_classification_witness :
    parse_line_content "Device Properties:" = .Header "Device Properties" ∧
    parse_line_content "   Site: Sample Site" = .Entry "Site" "Sample Site" ∧
    parse_line_content "Log Configuration" = .Header "Log Configuration" := by
  have h1 := (C7_line_classification "Device Properties:" (by decide)).1
    "Device Properties".data [] (by decide)
  have h2 := (C7_line_classification "   Site: Sample Site" (by decide)).1
    "Site".data " Sample Site".data (by decide)
  have h3 := (C7_line_classification "Log Configuration" (by decide)).2 (by decide)
  exact ⟨h1.2.1 (by decide), h2.2.2 (by decide), h3⟩

/-- Helper for Rust `str::split_whitespace`: accumulate the current token
(reversed) and emit tokens at whitespace boundaries, skipping empty ones. -/
def splitWsAux : List Char → List Char → List (List Char)
  | [], acc => if acc = [] then [] else [acc.reverse]
  | c :: rest, acc =>
    if isWs c then
      if acc = [] then splitWsAux rest []
      else acc.reverse :: splitWsAux rest []
    else splitWsAux rest (c :: acc)

/-- Rust `str::split_whitespace` (as a list of tokens). -/
def splitWs (l : List Char) : List (List Char) :=
  splitWsAux l []

/-- Numeric value of a digit string. -/
def digitsVal (l : List Char) : Nat :=
  l.foldl (fun n c => n * 10 + (c.toNat - '0'.toNat)) 0

/-- Rust `str::parse::<usize>()`: an optional leading `+`, then one or more
ASCII digits.  (usize overflow, impossible for the sensor indices involved,
is not modelled — Lean's `Nat` is unbounded.) -/
def parseNatStr (l : List Char) : Option Nat :=
  match l with
  | '+' :: rest =>
    if rest ≠ [] ∧ rest.all Char.isDigit then some (digitsVal rest) else none
  | _ =>
    if l ≠ [] ∧ l.all Char.isDigit then some (digitsVal l) else none

/-- `key.split_whitespace().next().and_then(|k| k.parse::<usize>().ok())`
(txt_reader.rs, lines 272-276). -/
def firstTokenNat (k : String) : Option Nat :=
  match splitWs k.data with
  | [] => none
  | t :: _ => parseNatStr t

/-- `key.split_whitespace().last()` (txt_reader.rs, lines 281-284). -/
def lastTokenStr (k : String) : Option String :=
  match (splitWs k.data).getLast? with
  | none => none
  | some t => some ⟨t⟩

/-- The line the reader sees at (0-based) line index `i`; `read_line` yields
an empty buffer at end of input. -/
def lineAt (lines : List String) (i : Nat) : String :=
  lines.getD i ""

/-- The `for n in 1..=sensor_count` loop of `read_log_data_attr`
(txt_reader.rs, lines 268-292): each line must parse as an `Entry` whose key
has a first whitespace token equal to `n` (else `InvalidData`); the pushed
pair is (sensor label = entry value, serial = last whitespace token of the
key).  `rem` counts remaining iterations, `i` the current line index. -/
def sensorLoop (lines : List String) :
    Nat → Nat → Nat → List (String × String) →
    Except LogError (List (String × String) × Nat)
  | 0, i, _, acc => .ok (acc, i)
  | rem + 1, i, n, acc =>
    match parse_line_content (lineAt lines i) with
    | .Entry k v =>
      match firstTokenNat k with
      | none => .error .invalidData
      | some m =>
        if m ≠ n then .error .invalidData
        else
          match lastTokenStr k with
          | none => .error .invalidData
          | some serial => sensorLoop lines rem (i + 1) (n + 1) (acc ++ [(v, serial)])
    | .Header _ => .error .invalidData

/-- The sensor block plus the final "Time Zone" check of
`read_log_data_attr` (txt_reader.rs, lines 268-292 and 313-321), starting at
line index `i` with a declared sensor count `count`. -/
def readSensorsAndTz (lines : List String) (i : Nat) (count : Nat) :
    Except LogError (List (String × String) × String) :=
  match sensorLoop lines count i 1 [] with
  | .error e => .error e
  | .ok (sensors, iTz) =>
    match parse_line_content (lineAt lines iTz) with
    | .Entry k v => if k = "Time Zone" then .ok (sensors, v) else .error .invalidData
    | .Header _ => .error .invalidData

/-- Spec-side shape of a well-formed sensor line for 1-based index `n`: an
`Entry` whose key starts with the integer `n` and has a last whitespace
token. -/
def isSensorEntry (line : String) (n : Nat) : Bool :=
  match parse_line_content line with
  | .Entry k _ =>
    match firstTokenNat k with
    | some m => m = n && (lastTokenStr k).isSome
    | none => false
  | .Header _ => false

/-- Spec-side (sensor label, serial) pair extracted from a sensor line. -/
def sensorPair (line : String) : String × String :=
  match parse_line_content line with
  | .Entry k v => (v, (lastTokenStr k).getD "")
  | .Header _ => ("", "")

theorem sensorLoop_ok (lines : List String) (count : Nat) :
    ∀ (i n : Nat) (acc : List (String × String)),
    (∀ j, j < count → isSensorEntry (lineAt lines (i + j)) (n + j) = true) →
    sensorLoop lines count i n acc =
      .ok (acc ++ (List.range count).map (fun j => sensorPair (lineAt lines (i + j))),
           i + count) := by
  induction count with
  | zero => intro i n acc _; simp [sensorLoop]
  | succ c ih =>
    intro i n acc h
    have h0 := h 0 (Nat.succ_pos c)
    simp only [Nat.add_zero] at h0
    unfold isSensorEntry at h0
    cases hp : parse_line_content (lineAt lines i) with
    | Header s => rw [hp] at h0; exact absurd h0 (by simp)
    | Entry k v =>
      rw [hp] at h0
      simp only [] at h0
      cases hf : firstTokenNat k with
      | none => rw [hf] at h0; exact absurd h0 (by simp)
      | some m =>
        rw [hf] at h0
        have hm : m = n ∧ (lastTokenStr k).isSome = true := by simpa using h0
        cases hl : lastTokenStr k with
        | none => rw [hl] at hm; exact absurd hm.2 (by simp)
        | some serial =>
          unfold sensorLoop
          rw [hp]
          simp only []
          rw [hf]
          simp only []
          rw [if_neg (by simp [hm.1])]
          rw [hl]
          simp only []
          have hrec := ih (i + 1) (n + 1) (acc ++ [(v, serial)]) (fun j hj => by
            have hh := h (j + 1) (by omega)
            have e1 : i + (j + 1) = i + 1 + j := by omega
            have e2 : n + (j + 1) = n + 1 + j := by omega
            rw [e1, e2] at hh
            exact hh)
          rw [hrec]
          have hpair : sensorPair (lineAt lines i) = (v, serial) := by
            unfold sensorPair
            rw [hp]
            simp only []
            simp [hl]
          rw [List.range_succ_eq_map]
          simp only [List.map_cons, List.map_map, Nat.add_zero, hpair]
          have hshift :
              (List.range c).map ((fun j => sensorPair (lineAt lines (i + j))) ∘ Nat.succ) =
              (List.range c).map (fun j => sensorPair (lineAt lines (i + 1 + j))) := by
            apply List.map_congr_left
            intro j _
            simp only [Function.comp]
            have : i + (j + 1) = i + 1 + j := by omega
            rw [← this]
          rw [hshift]
          simp [List.append_assoc]
          omega

theorem sensorLoop_err (lines : List String) (j : Nat) :
    ∀ (count i n : Nat) (acc : List (String × String)), j < count →
    (∀ j', j' < j → isSensorEntry (lineAt lines (i + j')) (n + j') = true) →
    isSensorEntry (lineAt lines (i + j)) (n + j) = false →
    sensorLoop lines count i n acc = .error .invalidData := by
  induction j with
  | zero =>
    intro count i n acc hj _ hbad
    obtain ⟨c, rfl⟩ : ∃ c, count = c + 1 := ⟨count - 1, by omega⟩
    simp only [Nat.add_zero] at hbad
    unfold isSensorEntry at hbad
    unfold sensorLoop
    cases hp : parse_line_content (lineAt lines i) with
    | Header s => rfl
    | Entry k v =>
      rw [hp] at hbad
      simp only [] at hbad
      simp only []
      cases hf : firstTokenNat k with
      | none => rfl
      | some m =>
        simp only []
        rw [hf] at hbad
        simp only [] at hbad
        by_cases hmn : m = n
        · subst hmn
          rw [if_neg (by simp)]
          cases hl : lastTokenStr k with
          | none => rfl
          | some serial => rw [hl] at hbad; exact absurd hbad (by simp)
        · rw [if_pos hmn]
  | succ j' ihj =>
    intro count i n acc hj hpre hbad
    obtain ⟨c, rfl⟩ : ∃ c, count = c + 1 := ⟨count - 1, by omega⟩
    have h0 := hpre 0 (Nat.succ_pos j')
    simp only [Nat.add_zero] at h0
    unfold isSensorEntry at h0
    cases hp : parse_line_content (lineAt lines i) with
    | Header s => rw [hp] at h0; exact absurd h0 (by simp)
    | Entry k v =>
      rw [hp] at h0
      simp only [] at h0
      cases hf : firstTokenNat k with
      | none => rw [hf] at h0; exact absurd h0 (by simp)
      | some m =>
        rw [hf] at h0
        have hm : m = n ∧ (lastTokenStr k).isSome = true := by simpa using h0
        cases hl : lastTokenStr k with
        | none => rw [hl] at hm; exact absurd hm.2 (by simp)
        | some serial =>
          unfold sensorLoop
          rw [hp]
          simp only []
          rw [hf]
          simp only []
          rw [if_neg (by simp [hm.1])]
          rw [hl]
          simp only []
          apply ihj c (i + 1) (n + 1) (acc ++ [(v, serial)]) (by omega)
          · intro j'' hj''
            have hh := hpre (j'' + 1) (by omega)
            have e1 : i + (j'' + 1) = i + 1 + j'' := by omega
            have e2 : n + (j'' + 1) = n + 1 + j'' := by omega
            rw [e1, e2] at hh
            exact hh
          · have e1 : i + (j' + 1) = i + 1 + j' := by omega
            have e2 : n + (j' + 1) = n + 1 + j' := by omega
            rw [e1, e2] at hbad
            exact hbad

/-- C8: the sensor block of `read_log_data_attr`.  (1) When each of the
`count` lines after the "Sensors" entry is an `Entry` whose key begins with
an integer equal to its 1-based position, and the following line is an
`Entry` keyed "Time Zone", the block succeeds and collects, in input order,
the pairs (sensor label = entry value, serial = last whitespace token of the
key).  (2) If some sensor line violates that shape (first violation at
position `j`), the block fails with `InvalidData`.  (3) If the sensor lines
are fine but the next line is not an `Entry` keyed "Time Zone", the block
fails with `InvalidData`. -/
theorem C8_sensor_block (lines : List String) (i count : Nat) :
    (∀ tz, (∀ j, j < count → isSensorEntry (lineAt lines (i + j)) (j + 1) = true) →
      parse_line_content (lineAt lines (i + count)) = .Entry "Time Zone" tz →
      readSensorsAndTz lines i count =
        .ok ((List.range count).map (fun j => sensorPair (lineAt lines (i + j))), tz)) ∧
    (∀ j, j < count →
      (∀ j', j' < j → isSensorEntry (lineAt lines (i + j')) (j' + 1) = true) →
      isSensorEntry (lineAt lines (i + j)) (j + 1) = false →
      readSensorsAndTz lines i count = .error .invalidData) ∧
    ((∀ j, j < count → isSensorEntry (lineAt lines (i + j)) (j + 1) = true) →
      (∀ v, parse_line_content (lineAt lines (i + count)) ≠ .Entry "Time Zone" v) →
      readSensorsAndTz lines i count = .error .invalidData) := by
  have hshift : ∀ j : Nat, j + 1 = 1 + j := fun j => by omega
  refine ⟨?_, ?_, ?_⟩
  · intro tz h htz
    unfold readSensorsAndTz
    rw [sensorLoop_ok lines count i 1 [] (fun j hj => by rw [← hshift j]; exact h j hj)]
    simp only []
    rw [htz]
    simp
  · intro j hj hpre hbad
    unfold readSensorsAndTz
    rw [sensorLoop_err lines j count i 1 [] hj
      (fun j' hj' => by have hq := hpre j' hj'; rw [hshift j'] at hq; exact hq)
      (by rw [hshift j] at hbad; exact hbad)]
  · intro h htz
    unfold readSensorsAndTz
    rw [sensorLoop_ok lines count i 1 [] (fun j hj => by rw [← hshift j]; exact h j hj)]
    simp only []
    cases hp : parse_line_content (lineAt lines (i + count)) with
    | Header s => rfl
    | Entry k v =>
      simp only []
      by_cases hk : k = "Time Zone"
      · subst hk
        exact absurd hp (htz v)
      · rw [if_neg hk]

theorem C8_sensor_block_witness :
    readSensorsAndTz ["1 - 99: pH", "2 - 98: Temp", "Time Zone: UTC"] 0 2 =
      .ok ([("pH", "99"), ("Temp", "98")], "UTC") := by
  have h := (C8_sensor_block ["1 - 99: pH", "2 - 98: Temp", "Time Zone: UTC"] 0 2).1
    "UTC" (by decide) (by decide)
  simpa using h

/-- Rust slice `gs[l..r]` of the grapheme list, as take-then-drop.  (The
reader clamps the right end to the list length; a left end beyond the
clamped right end yields the empty slice where Rust would panic — no
verified property depends on that case.) -/
def sliceList (gs : List String) (l r : Nat) : List String :=
  (gs.take r).drop l

/-- Rust `[&str]::concat`. -/
def concatList (gs : List String) : String :=
  gs.foldl (fun a b => a ++ b) ""

/-- The per-data-line field extraction of the fixed-width `read_table`
(txt_reader.rs, lines 186-197): trim the line, segment the trimmed line into
grapheme clusters (the external unicode-segmentation crate, abstracted as
the parameter `g`), and for each column span `(l, r)` slice graphemes
`l .. min(r+1, len)`, concatenate and trim. -/
def extractRow (g : List Char → List String) (spans : List (Nat × Nat))
    (line : List Char) : List String :=
  spans.map (fun lr =>
    rustTrim (concatList
      (sliceList (g (trimChars line)) lr.1 (min (lr.2 + 1) (g (trimChars line)).length))))

theorem dropWhile_append_all {α : Type} (p : α → Bool) (xs ys : List α)
    (h : ∀ x ∈ xs, p x = true) :
    (xs ++ ys).dropWhile p = ys.dropWhile p := by
  induction xs with
  | nil => rfl
  | cons a rest ih =>
    simp only [List.cons_append, List.dropWhile_cons]
    rw [h a (List.mem_cons_self _ _)]
    simp only [if_true]
    exact ih (fun x hx => h x (List.mem_cons_of_mem _ hx))

theorem trimChars_append_spaces (line pad : List Char) (hpad : ∀ c ∈ pad, c = ' ') :
    trimChars (line ++ pad) = trimChars line := by
  unfold trimChars trailTrim
  rw [List.reverse_append]
  rw [dropWhile_append_all isWs pad.reverse line.reverse
    (fun c hc => by
      have : c ∈ pad := List.mem_reverse.mp hc
      rw [hpad c this]
      rfl)]

/-- C6: fixed-width data-line field extraction is invariant under
trailing-space padding: appending any number of spaces to a data line leaves
every extracted field unchanged (the reader trims the line before grapheme
segmentation and slicing).  Quantified over every grapheme-segmentation
function `g`, hence in particular over the real one. -/
theorem C6_padding_invariance (g : List Char → List String) (spans : List (Nat × Nat))
    (line pad : List Char) (hpad : ∀ c ∈ pad, c = ' ') :
    extractRow g spans (line ++ pad) = extractRow g spans line := by
  unfold extractRow
  rw [trimChars_append_spaces line pad hpad]

/-- One character per grapheme: the segmentation of pure-ASCII text. -/
def asciiGraphemes (l : List Char) : List String :=
  l.map (fun c => String.mk [c])

theorem C6_padding_invariance_witness :
    extractRow asciiGraphemes [(0, 1), (3, 4)] ("ab cd".data ++ [' ', ' ']) =
      extractRow asciiGraphemes [(0, 1), (3, 4)] "ab cd".data := by
  exact C6_padding_invariance asciiGraphemes [(0, 1), (3, 4)] "ab cd".data [' ', ' ']
    (by decide)

/-! Structured-report (HTML) reader, src/src/util/html_reader.rs.  A
data-header cell is modelled by its resolved attributes: the
`isi-data-column-header` label, the parameter name resolved through the
external `Parameter` lookup (`none` when the code is absent or unknown), the
unit symbol resolved through the external `Unit` lookup, and the optional
sensor type / serial numbers. -/

structure HtmlHeaderCell where
  attr : String
  param : Option String
  unit : Option String
  sensorType : Option Nat
  sensorSerial : Option Nat
deriving DecidableEq, Repr

/-- The literal string pushed for repeated unnamed columns (html_reader.rs,
line 121): the Rust code pushes `"Unknown_{:02}".to_string()` — a plain
string literal, NOT a `format!` call, so the counter is never interpolated. -/
def unknownLit : String := "Unknown_\x7b:02\x7d"

/-- `s.starts_with("Unknown")` (html_reader.rs, line 119). -/
def startsWithUnknown (s : String) : Bool :=
  "Unknown".data.isPrefixOf s.data

/-- The field name computed for one data-header cell given the names already
pushed (html_reader.rs, lines 95-125). -/
def htmlFieldName (fields : List String) (cell : HtmlHeaderCell) : String :=
  match cell.param with
  | some p =>
    match cell.unit with
    | some u => p ++ " (" ++ u ++ ")"
    | none => p
  | none =>
    if cell.attr = "DateTime" then "Date Time"
    else if cell.attr = "Marked" then "Marked"
    else if (fields.filter (fun s => startsWithUnknown s)).length > 0 then unknownLit
    else "Unknown"

/-- The `izip!` loop over data-header cells (html_reader.rs, lines 92-127):
push each cell's field name; record `(param, type, serial)` sensor
provenance when parameter, unit, serial and type are all present. -/
def htmlFieldLoop : List HtmlHeaderCell → List String → List (String × Nat × Nat) →
    List String × List (String × Nat × Nat)
  | [], fields, sensors => (fields, sensors)
  | cell :: rest, fields, sensors =>
    htmlFieldLoop rest (fields ++ [htmlFieldName fields cell])
      (match cell.param, cell.unit, cell.sensorSerial, cell.sensorType with
        | some p, some _, some serial, some t => sensors ++ [(p, t, serial)]
        | _, _, _, _ => sensors)

/-- A cell with no resolvable parameter whose label is neither "DateTime"
nor "Marked" (the claim's "unnamed" cell). -/
def isUnnamed (cell : HtmlHeaderCell) : Bool :=
  cell.param.isNone && !(cell.attr == "DateTime") && !(cell.attr == "Marked")

/-- Spec-side description of the names the header loop produces: an unnamed
cell is labeled "Unknown" when no unnamed cell precedes it and the literal
`"Unknown_{:02}"` afterwards; a named cell gets its (fields-independent)
name. -/
def specNames (seen : Bool) : List HtmlHeaderCell → List String
  | [] => []
  | cell :: rest =>
    if isUnnamed cell then
      (if seen then unknownLit else "Unknown") :: specNames true rest
    else
      htmlFieldName [] cell :: specNames seen rest

theorem htmlFieldName_of_named (fields : List String) (cell : HtmlHeaderCell)
    (h : isUnnamed cell = false) :
    htmlFieldName fields cell = htmlFieldName [] cell := by
  unfold htmlFieldName
  cases hp : cell.param with
  | some p => rfl
  | none =>
    by_cases hdt : cell.attr = "DateTime"
    · simp [hdt]
    · by_cases hmk : cell.attr = "Marked"
      · simp [hdt, hmk]
      · exfalso
        unfold isUnnamed at h
        rw [hp] at h
        simp [hdt, hmk] at h


theorem htmlFieldLoop_spec (cells : List HtmlHeaderCell) :
    ∀ (fields : List String) (sensors : List (String × Nat × Nat)) (seen : Bool),
    (fields.any startsWithUnknown) = seen →
    (∀ cell ∈ cells, isUnnamed cell = false →
      startsWithUnknown (htmlFieldName [] cell) = false) →
    (htmlFieldLoop cells fields sensors).1 = fields ++ specNames seen cells := by
  induction cells with
  | nil => intro fields sensors seen _ _; simp [htmlFieldLoop, specNames]
  | cons cell rest ih =>
    intro fields sensors seen hseen hn
    unfold htmlFieldLoop specNames
    by_cases hu : isUnnamed cell = true
    · rw [hu]
      simp only [if_true]
      have hname : htmlFieldName fields cell =
          (if seen then unknownLit else "Unknown") := by
        unfold isUnnamed at hu
        simp only [Bool.and_eq_true, Bool.not_eq_true', beq_eq_false_iff_ne,
          Option.isNone_iff_eq_none] at hu
        unfold htmlFieldName
        rw [hu.1.1]
        rw [if_neg hu.1.2, if_neg hu.2]
        cases seen with
        | true =>
          obtain ⟨a, hmem, hpa⟩ := List.any_eq_true.mp hseen
          have hane : a ∈ fields.filter (fun s => startsWithUnknown s) :=
            List.mem_filter.mpr ⟨hmem, hpa⟩
          rw [if_pos (List.length_pos.mpr (List.ne_nil_of_mem hane))]
          simp
        | false =>
          have hnil : fields.filter (fun s => startsWithUnknown s) = [] := by
            rw [List.filter_eq_nil_iff]
            intro a hmem
            cases hpa : startsWithUnknown a with
            | false => simp
            | true =>
              have hcontra := List.any_eq_true.mpr ⟨a, hmem, hpa⟩
              rw [hseen] at hcontra
              exact absurd hcontra (by simp)
          rw [hnil]
          simp
      rw [hname]
      rw [ih (fields ++ [if seen then unknownLit else "Unknown"]) _ true
        (by
          rw [List.any_append]
          have : ([if seen then unknownLit else "Unknown"].any startsWithUnknown) = true := by
            cases seen with
            | true => decide
            | false => decide
          rw [this]
          simp)
        (fun c hc hcn => hn c (List.mem_cons_of_mem _ hc) hcn)]
      simp
    · have hu' : isUnnamed cell = false := by
        cases h : isUnnamed cell with
        | true => exact absurd h hu
        | false => rfl
      rw [hu']
      simp only [if_false, Bool.false_eq_true]
      rw [htmlFieldName_of_named fields cell hu']
      rw [ih (fields ++ [htmlFieldName [] cell]) _ seen
        (by
          rw [List.any_append]
          have : ([htmlFieldName [] cell].any startsWithUnknown) = false := by
            simp [hn cell (List.mem_cons_self _ _) hu']
          rw [this]
          simp [hseen])
        (fun c hc hcn => hn c (List.mem_cons_of_mem _ hc) hcn)]
      simp

/-- C9 (amended): in the structured-report header-naming loop, an unnamed
cell (no resolvable parameter, label neither "DateTime" nor "Marked") is
labeled "Unknown" only on its FIRST occurrence; every subsequent unnamed
cell receives the literal string `"Unknown_{:02}"` — the counter the code
computes is never interpolated into the label (html_reader.rs pushes the
format string itself).  Stated as: the loop's output is `specNames false`,
provided no named cell produces a name starting with "Unknown". -/
theorem C9_unknown_labels (cells : List HtmlHeaderCell)
    (hn : ∀ cell ∈ cells, isUnnamed cell = false →
      startsWithUnknown (htmlFieldName [] cell) = false) :
    (htmlFieldLoop cells [] []).1 = specNames false cells := by
  have h := htmlFieldLoop_spec cells [] [] false (by simp) hn
  simpa using h

/-- An unnamed header cell with the given label. -/
def unnamedCell (a : String) : HtmlHeaderCell :=
  { attr := a, param := none, unit := none, sensorType := none, sensorSerial := none }

/-- A parameter/unit header cell. -/
def paramCell (p u : String) : HtmlHeaderCell :=
  { attr := "Parameter", param := some p, unit := some u,
    sensorType := none, sensorSerial := none }

theorem C9_unknown_labels_witness :
    (htmlFieldLoop [unnamedCell "X", paramCell "Temperature" "C", unnamedCell "Y"] [] []).1 =
      ["Unknown", "Temperature (C)", "Unknown_\x7b:02\x7d"] := by
  have h := C9_unknown_labels [unnamedCell "X", paramCell "Temperature" "C", unnamedCell "Y"]
    (by decide)
  rw [h]
  decide

/-- C9 (counterexample to the claim as stated): with two unnamed header
cells, the second is labeled with the literal `"Unknown_{:02}"`, not with
`"Unknown"` as the claim asserts. -/
theorem C9_unknown_labels_counterexample :
    (htmlFieldLoop [unnamedCell "X", unnamedCell "Y"] [] []).1 =
      ["Unknown", "Unknown_\x7b:02\x7d"] ∧
    "Unknown_\x7b:02\x7d" ≠ "Unknown" := by
  exact ⟨by decide, by decide⟩

/-! `detect_column_span` (txt_reader.rs, lines 81-130): the span computation
performed on the trimmed ruler line (lines 104-123). -/

/-- The `for (n, c) in buf_trim.chars().enumerate()` scan of
`detect_column_span` (txt_reader.rs, lines 106-119), on the enumerated
character list; the state is the current `range` pair and the spans pushed
so far. -/
def spanLoop : List (Nat × Char) → (Nat × Nat) → List (Nat × Nat) →
    (Nat × Nat) × List (Nat × Nat)
  | [], range, spans => (range, spans)
  | (n, c) :: rest, range, spans =>
    if c = '-' then
      if range.2 ≥ range.1 then spanLoop rest (range.1, n) spans
      else spanLoop rest (n, n) spans
    else
      if range.2 > range.1 then spanLoop rest (n + 1, n) (spans ++ [range])
      else spanLoop rest (n + 1, n) spans

/-- The `if range != (0, 0) { spans.push(range) }` flush after the scan
(txt_reader.rs, lines 120-122). -/
def finishSpans : (Nat × Nat) × List (Nat × Nat) → List (Nat × Nat) :=
  fun rs => if rs.1 ≠ (0, 0) then rs.2 ++ [rs.1] else rs.2

/-- The spans `detect_column_span` computes for a (trimmed) ruler line. -/
def detectSpans (line : List Char) : List (Nat × Nat) :=
  finishSpans (spanLoop line.enum (0, 0) [])

/-- Spec-side maximal dash runs as inclusive `(start, end)` offset pairs:
`i` is the current offset and the `Option` holds the start of an open run. -/
def dashRunsAux : List Char → Nat → Option Nat → List (Nat × Nat)
  | [], _, none => []
  | [], i, some s => [(s, i - 1)]
  | c :: rest, i, none =>
    if c = '-' then dashRunsAux rest (i + 1) (some i) else dashRunsAux rest (i + 1) none
  | c :: rest, i, some s =>
    if c = '-' then dashRunsAux rest (i + 1) (some s)
    else (s, i - 1) :: dashRunsAux rest (i + 1) none

/-- All maximal dash runs of a line, in left-to-right order. -/
def dashRuns (line : List Char) : List (Nat × Nat) :=
  dashRunsAux line 0 none

/-- Which maximal runs the scanner reports on a line of `N` characters:
runs of length at least two, plus a final single-dash run ending the line at
a nonzero offset. -/
def keepSpan (N : Nat) (r : Nat × Nat) : Bool :=
  if r.1 < r.2 ∨ (r.2 + 1 = N ∧ r ≠ (0, 0)) then true else false

/-- The scanner `range` corresponding to a run state at offset `i`: an open
run started at `s` is `(s, i-1)`; no open run is the marker `(i, i-1)`. -/
def rangeOfState (i : Nat) : Option Nat → Nat × Nat
  | some s => (s, i - 1)
  | none => (i, i - 1)

theorem spanLoop_spec (l : List Char) :
    ∀ (i : Nat) (σ : Option Nat) (spans : List (Nat × Nat)) (N : Nat),
    N = i + l.length →
    (match σ with
      | some s => s + 1 ≤ i ∧ (l = [] ∨ l.getLast? = some '-')
      | none => 1 ≤ i ∧ l.getLast? = some '-') →
    finishSpans (spanLoop (List.enumFrom i l) (rangeOfState i σ) spans) =
      spans ++ (dashRunsAux l i σ).filter (keepSpan N) := by
  induction l with
  | nil =>
    intro i σ spans N hN hσ
    cases σ with
    | none => exact absurd hσ.2 (by simp)
    | some s =>
      obtain ⟨hsi, _⟩ := hσ
      simp only [List.length_nil, Nat.add_zero] at hN
      obtain rfl : i = N := hN.symm
      simp only [List.enumFrom, spanLoop, rangeOfState, dashRunsAux, finishSpans,
        List.filter_cons, List.filter_nil]
      by_cases h00 : (s, i - 1) = ((0 : Nat), (0 : Nat))
      · rw [if_neg (by simp [h00])]
        have hs0 : s = 0 := by
          have := congrArg Prod.fst h00
          simpa using this
        have hi1 : i - 1 = 0 := by
          have := congrArg Prod.snd h00
          simpa using this
        have hkeep : keepSpan i (s, i - 1) = false := by
          unfold keepSpan
          rw [if_neg]
          push_neg
          refine ⟨by omega, fun _ => ?_⟩
          simpa using h00
        rw [hkeep]
        simp
      · rw [if_pos (by simpa using h00)]
        have hkeep : keepSpan i (s, i - 1) = true := by
          unfold keepSpan
          by_cases hlt : s < i - 1
          · rw [if_pos (Or.inl hlt)]
          · rw [if_pos (Or.inr ⟨by omega, by simpa using h00⟩)]
        rw [hkeep]
        simp
  | cons c rest ih =>
    intro i σ spans N hN hσ
    simp only [List.length_cons] at hN
    have hN' : N = (i + 1) + rest.length := by omega
    cases σ with
    | some s =>
      obtain ⟨hsi, hend⟩ := hσ
      have hend' : rest = [] ∨ rest.getLast? = some '-' := by
        rcases hend with hend | hend
        · exact absurd hend (by simp)
        · cases rest with
          | nil => exact Or.inl rfl
          | cons d t =>
            rw [List.getLast?_cons_cons] at hend
            exact Or.inr hend
      simp only [List.enumFrom, spanLoop, rangeOfState]
      by_cases hc : c = '-'
      · rw [if_pos hc]
        rw [if_pos (by simp only []; omega : (s, i - 1).2 ≥ (s, i - 1).1)]
        have hih := ih (i + 1) (some s) spans N hN' ⟨by omega, hend'⟩
        simp only [rangeOfState, Nat.add_sub_cancel] at hih
        rw [hih]
        simp only [dashRunsAux, if_pos hc]
      · rw [if_neg hc]
        have hrest : rest.getLast? = some '-' := by
          rcases hend with hend | hend
          · exact absurd hend (by simp)
          · cases rest with
            | nil =>
              simp only [List.getLast?_singleton] at hend
              exact absurd (Option.some.injEq _ _ ▸ hend) hc
            | cons d t =>
              rw [List.getLast?_cons_cons] at hend
              exact hend
        by_cases hgt : (s, i - 1).2 > (s, i - 1).1
        · rw [if_pos hgt]
          have hih := ih (i + 1) none (spans ++ [(s, i - 1)]) N hN' ⟨by omega, hrest⟩
          simp only [rangeOfState, Nat.add_sub_cancel] at hih
          rw [hih]
          have hkeep : keepSpan N (s, i - 1) = true := by
            unfold keepSpan
            rw [if_pos (Or.inl (by simpa using hgt))]
          simp only [dashRunsAux, if_neg hc, List.filter_cons, hkeep]
          simp [List.append_assoc]
        · rw [if_neg hgt]
          have hih := ih (i + 1) none spans N hN' ⟨by omega, hrest⟩
          simp only [rangeOfState, Nat.add_sub_cancel] at hih
          rw [hih]
          have hkeep : keepSpan N (s, i - 1) = false := by
            unfold keepSpan
            rw [if_neg ?_]
            push_neg
            constructor
            · simp only [] at hgt ⊢
              omega
            · intro habs
              exfalso
              omega
          simp only [dashRunsAux, if_neg hc, List.filter_cons, hkeep]
          simp
    | none =>
      obtain ⟨hi1, hend⟩ := hσ
      simp only [List.enumFrom, spanLoop, rangeOfState]
      by_cases hc : c = '-'
      · rw [if_pos hc]
        rw [if_neg (by simp only []; omega : ¬ (i, i - 1).2 ≥ (i, i - 1).1)]
        have hend' : rest = [] ∨ rest.getLast? = some '-' := by
          cases rest with
          | nil => exact Or.inl rfl
          | cons d t =>
            rw [List.getLast?_cons_cons] at hend
            exact Or.inr hend
        have hih := ih (i + 1) (some i) spans N hN' ⟨by omega, hend'⟩
        simp only [rangeOfState, Nat.add_sub_cancel] at hih
        rw [hih]
        simp only [dashRunsAux, if_pos hc]
      · rw [if_neg hc]
        rw [if_neg (by simp only []; omega : ¬ (i, i - 1).2 > (i, i - 1).1)]
        have hrest : rest.getLast? = some '-' := by
          cases rest with
          | nil =>
            simp only [List.getLast?_singleton] at hend
            exact absurd (Option.some.injEq _ _ ▸ hend) hc
          | cons d t =>
            rw [List.getLast?_cons_cons] at hend
            exact hend
        have hih := ih (i + 1) none spans N hN' ⟨by omega, hrest⟩
        simp only [rangeOfState, Nat.add_sub_cancel] at hih
        rw [hih]
        simp only [dashRunsAux, if_neg hc]

theorem trimmed_getLast_dash (l : List Char) (hne : l ≠ [])
    (ht : trimChars l = l) (hruler : ∀ c ∈ l, c = '-' ∨ isWs c = true) :
    l.getLast? = some '-' := by
  obtain ⟨b, t, hr⟩ : ∃ b t, l.reverse = b :: t := by
    cases hr : l.reverse with
    | nil => exact absurd (by simpa using congrArg List.reverse hr) hne
    | cons b t => exact ⟨b, t, rfl⟩
  have hlast : l.getLast? = some b := by
    rw [← List.head?_reverse, hr]
    rfl
  have hmem : b ∈ l := by
    rw [← List.mem_reverse, hr]
    exact List.mem_cons_self _ _
  have h2 : l.length ≤ (trailTrim l).length := by
    conv_lhs => rw [← ht]
    unfold trimChars
    exact ((List.dropWhile_suffix _).sublist).length_le
  have h3 : (l.reverse.dropWhile isWs).length = l.reverse.length := by
    have hup : (l.reverse.dropWhile isWs).length ≤ l.reverse.length :=
      ((List.dropWhile_suffix _).sublist).length_le
    have hlow : l.reverse.length ≤ (l.reverse.dropWhile isWs).length := by
      rw [List.length_reverse]
      unfold trailTrim at h2
      rw [List.length_reverse] at h2
      exact h2
    omega
  have h4 : l.reverse.dropWhile isWs = l.reverse :=
    ((List.dropWhile_suffix _).sublist).eq_of_length h3
  rw [List.dropWhile_eq_self_iff] at h4
  have hpos : 0 < l.reverse.length := by rw [hr]; simp
  have hhead : l.reverse.get ⟨0, hpos⟩ = b := by
    have h5 : l.reverse.head? = some b := by rw [hr]; rfl
    have h6 := List.head?_eq_head (l := l.reverse) (by rw [hr]; simp)
    rw [List.get_mk_zero]
    rw [h5] at h6
    exact (Option.some.inj h6).symm
  have hws : isWs b = false := by
    have := h4 hpos
    rw [hhead] at this
    cases hb : isWs b with
    | false => rfl
    | true => exact absurd (by rw [hb]) this
  rcases hruler b hmem with hb | hb
  · rw [hlast, hb]
  · rw [hb] at hws
    exact absurd hws (by simp)

/-- C5 (amended): for a ruler line (nonempty, trimmed, consisting only of
dashes and whitespace), `detect_column_span` returns, in left-to-right
order, one `[start, end]` span per maximal dash run of length at least two,
plus the span of a final single-dash run that ends the line at a nonzero
offset; every other single-dash run produces NO span (and a line that is a
single dash at offset 0 yields no spans at all). -/
theorem C5_span_detection (line : List Char) (hne : line ≠ [])
    (htrimmed : trimChars line = line)
    (hruler : ∀ c ∈ line, c = '-' ∨ isWs c = true) :
    detectSpans line = (dashRuns line).filter (keepSpan line.length) := by
  have hlast : line.getLast? = some '-' := trimmed_getLast_dash line hne htrimmed hruler
  cases line with
  | nil => exact absurd rfl hne
  | cons c rest =>
    unfold detectSpans dashRuns
    simp only [List.enum, List.enumFrom, spanLoop]
    by_cases hc : c = '-'
    · rw [if_pos hc]
      rw [if_pos (by simp : ((0 : Nat), (0 : Nat)).2 ≥ ((0 : Nat), (0 : Nat)).1)]
      have hend' : rest = [] ∨ rest.getLast? = some '-' := by
        cases rest with
        | nil => exact Or.inl rfl
        | cons d t =>
          rw [List.getLast?_cons_cons] at hlast
          exact Or.inr hlast
      have h := spanLoop_spec rest 1 (some 0) [] (c :: rest).length
        (by simp; omega) ⟨le_refl 1, hend'⟩
      simp only [rangeOfState] at h
      rw [h]
      simp only [dashRunsAux, if_pos hc, List.nil_append]
    · rw [if_neg hc]
      rw [if_neg (by simp : ¬ ((0 : Nat), (0 : Nat)).2 > ((0 : Nat), (0 : Nat)).1)]
      have hrest : rest.getLast? = some '-' := by
        cases rest with
        | nil =>
          simp only [List.getLast?_singleton] at hlast
          exact absurd (Option.some.injEq _ _ ▸ hlast) hc
        | cons d t =>
          rw [List.getLast?_cons_cons] at hlast
          exact hlast
      have h := spanLoop_spec rest 1 none [] (c :: rest).length
        (by simp; omega) ⟨le_refl 1, hrest⟩
      simp only [rangeOfState] at h
      rw [h]
      simp only [dashRunsAux, if_neg hc, List.nil_append]

theorem C5_span_detection_witness :
    detectSpans "-- -".data = (dashRuns "-- -".data).filter (keepSpan 4) ∧
    detectSpans "-- -".data = [(0, 1), (3, 3)] := by
  have h := C5_span_detection "-- -".data (by decide) (by decide) (by decide)
  exact ⟨by simpa using h, by decide⟩

/-- C5 (counterexample to the claim as stated): on the ruler line `"- --"`
the maximal dash runs are `[(0,0), (2,3)]`, but `detect_column_span` reports
only `[(2,3)]` — the leading single-dash run yields no span, refuting
"exactly one span per maximal run of consecutive dashes, including runs of a
single dash". -/
theorem C5_span_detection_counterexample :
    dashRuns "- --".data = [(0, 0), (2, 3)] ∧
    (∀ c ∈ "- --".data, c = '-' ∨ isWs c = true) ∧
    trimChars "- --".data = "- --".data ∧
    detectSpans "- --".data = [(2, 3)] ∧
    detectSpans "- --".data ≠ dashRuns "- --".data := by
  refine ⟨by decide, by decide, by decide, by decide, by decide⟩

end AquaTroll
